import Mathlib

/-!
Verification of the MIVOT instance-mapping engine
(`pyvo/mivot/viewer/mivot_instance.py`).

The engine has three parts:
* the Model Instance Builder (`_create_class`), which turns a nested
  dictionary derived from an XML annotation block into a tree of
  dynamically-shaped objects;
* the Row Binder (`update`), which overwrites ATTRIBUTE leaf values in
  place from a tabular data row;
* the name normalizer (`_remove_model_name`) and the dictionary
  projection (`_get_class_dict`).

The embedding below models Python objects as insertion-ordered
association lists (mirroring `__dict__` semantics of `setattr` /
`getattr` / `vars`), and the external collaborators (the typed-cast
helper, the static unit-name table `unit_mapping` and the time-format
table `time.TIME_FORMATS`) as parameters, since they live outside the
specified component.
-/

set_option autoImplicit false

/-- Scalar (non-object, non-list) Python values that can appear on a
MivotInstance attribute: strings, cast floats (modelled as rationals,
`3.5` being exactly representable), `None`, and the opaque astropy unit
object obtained from the `unit_mapping` table (identified by the unit
name that keyed it). -/
inductive PyVal where
  | vstr (s : String)
  | vfloat (q : Rat)
  | vnone
  | astropyUnit (name : String)
deriving DecidableEq, Repr

/-- A value of the nested input dictionary handed to the builder:
a scalar string, a nested dictionary (INSTANCE or ATTRIBUTE bundle), or
an ordered sequence of item dictionaries (COLLECTION). -/
inductive InVal where
  | scalar (s : String)
  | inst (d : List (String × InVal))
  | coll (items : List (List (String × InVal)))
deriving Repr

/-- A runtime field value of a built MivotInstance: a scalar leaf, a
nested MivotInstance (given by its insertion-ordered `__dict__`), or a
Python list of nodes. -/
inductive Node where
  | scalar (v : PyVal)
  | inst (fields : List (String × Node))
  | coll (items : List Node)
deriving Repr

/-- The `__dict__` of a MivotInstance: insertion-ordered mapping from
attribute name to value. -/
abbrev Obj := List (String × Node)

/-- Python `setattr` on an insertion-ordered `__dict__`: overwrite in
place when the key exists, append otherwise. -/
def setattr : Obj → String → Node → Obj
  | [], k, n => [(k, n)]
  | kv :: rest, k, n => if kv.1 = k then (k, n) :: rest else kv :: setattr rest k n

/-- Python `getattr`, returning `none` where Python raises
`AttributeError`. -/
def getattr_opt : Obj → String → Option Node
  | [], _ => none
  | kv :: rest, k => if kv.1 = k then some kv.2 else getattr_opt rest k

/-- Python `str.find`: index of the first occurrence of a character,
`none` for Python's `-1`. -/
def firstIdx (c : Char) : List Char → Option Nat
  | [] => none
  | x :: xs => if x = c then some 0 else (firstIdx c xs).map (· + 1)

/-- Python `str.rfind`: index of the last occurrence of a character,
`none` for Python's `-1`. -/
def rfindIdx (c : Char) : List Char → Option Nat
  | [] => none
  | x :: xs =>
    match rfindIdx c xs with
    | some j => some (j + 1)
    | none => if x = c then some 0 else none

/-- `.replace(':', '_').replace('.', '_')` applied to a character list,
then repacked as a string. -/
def underscoreJoin (cs : List Char) : String :=
  String.mk (cs.map (fun c => if c = ':' ∨ c = '.' then '_' else c))

/-- `MivotInstance._remove_model_name`: strip the model name before the
first colon; if a dot occurs (anywhere, Python `rfind` on the whole
string) and `role_instance` is false, keep only what follows the last
dot; otherwise keep the remainder after the first colon with colons and
dots replaced by underscores. Strings without a colon are returned
unchanged. -/
def remove_model_name (value : String) (role_instance : Bool := false) : String :=
  let cs := value.toList
  match firstIdx ':' cs with
  | none => value
  | some i =>
    match rfindIdx '.' cs with
    | some j =>
      if ¬ role_instance then String.mk (cs.drop (j + 1))
      else underscoreJoin (cs.drop (i + 1))
    | none => underscoreJoin (cs.drop (i + 1))

/-- Everything after the first occurrence of `c` (empty when `c` is
absent). -/
def afterFirst (c : Char) : List Char → List Char
  | [] => []
  | x :: xs => if x = c then xs else afterFirst c xs

/-- Everything after the last occurrence of `c` (empty when `c` is
absent). -/
def afterLast (c : Char) : List Char → List Char
  | [] => []
  | x :: xs => if x = c ∧ c ∉ xs then xs else afterLast c xs

/-- The name normalizer as the amended specification words it: tokens
without a colon are unchanged; with `role_instance` false and a dot
present anywhere in the token, the trailing segment after the last dot
of the whole token survives; otherwise the remainder after the first
colon survives with every remaining colon and dot flattened to an
underscore. Stated independently of `remove_model_name` so that their
agreement is a genuine refinement theorem. -/
def normalize_spec (s : String) (role_instance : Bool) : String :=
  let cs := s.toList
  if ':' ∉ cs then s
  else if ¬ role_instance ∧ '.' ∈ cs then String.mk (afterLast '.' cs)
  else underscoreJoin (afterFirst ':' cs)

theorem firstIdx_none_iff {c : Char} : ∀ {cs : List Char}, firstIdx c cs = none ↔ c ∉ cs := by
  intro cs
  induction cs with
  | nil => simp [firstIdx]
  | cons x xs ih =>
    by_cases hx : x = c
    · simp [firstIdx, hx]
    · rw [firstIdx, if_neg hx, Option.map_eq_none', ih]
      simp only [List.mem_cons, not_or]
      exact ⟨fun h => ⟨fun hcx => hx hcx.symm, h⟩, fun h => h.2⟩

theorem rfindIdx_none_iff {c : Char} : ∀ {cs : List Char}, rfindIdx c cs = none ↔ c ∉ cs := by
  intro cs
  induction cs with
  | nil => simp [rfindIdx]
  | cons x xs ih =>
    rw [rfindIdx]
    rcases h : rfindIdx c xs with _ | j
    · have hnm := ih.mp h
      by_cases hx : x = c
      · simp [hx, List.mem_cons]
      · simp only [if_neg hx, List.mem_cons, not_or]
        exact ⟨fun _ => ⟨fun hcx => hx hcx.symm, hnm⟩, fun _ => trivial⟩
    · have hmem : c ∈ xs := by
        by_contra hc
        rw [ih.mpr hc] at h
        exact Option.noConfusion h
      simp [List.mem_cons, hmem]

theorem firstIdx_drop {c : Char} : ∀ {cs : List Char} {i : Nat},
    firstIdx c cs = some i → cs.drop (i + 1) = afterFirst c cs := by
  intro cs
  induction cs with
  | nil => intro i h; exact Option.noConfusion h
  | cons x xs ih =>
    intro i h
    by_cases hx : x = c
    · simp [firstIdx, hx] at h
      subst h
      simp [afterFirst, hx]
    · simp [firstIdx, hx] at h
      obtain ⟨j, hj, rfl⟩ := h
      simpa [afterFirst, hx] using ih hj

theorem rfindIdx_drop {c : Char} : ∀ {cs : List Char} {j : Nat},
    rfindIdx c cs = some j → cs.drop (j + 1) = afterLast c cs := by
  intro cs
  induction cs with
  | nil => intro j h; exact Option.noConfusion h
  | cons x xs ih =>
    intro j h
    rw [rfindIdx] at h
    rcases hxs : rfindIdx c xs with _ | j'
    · rw [hxs] at h
      by_cases hx : x = c
      · simp [hx] at h
        subst h
        have hnc : c ∉ xs := rfindIdx_none_iff.mp hxs
        simp [afterLast, hx, hnc]
      · simp [hx] at h
    · rw [hxs] at h
      cases h
      have hcont : c ∈ xs := by
        by_contra hc
        rw [rfindIdx_none_iff.mpr hc] at hxs
        exact Option.noConfusion hxs
      have hnot : ¬ (x = c ∧ c ∉ xs) := by
        intro ⟨_, h2⟩; exact h2 hcont
      simp only [List.drop_succ_cons, afterLast, if_neg hnot]
      exact ih hxs

theorem remove_model_name_eq_spec (s : String) (ri : Bool) :
    remove_model_name s ri = normalize_spec s ri := by
  simp only [remove_model_name, normalize_spec]
  rcases h1 : firstIdx ':' s.toList with _ | i <;> simp only [h1]
  · rw [if_pos (firstIdx_none_iff.mp h1)]
  · have hcolon : ':' ∈ s.toList := by
      by_contra hc
      rw [firstIdx_none_iff.mpr hc] at h1
      exact Option.noConfusion h1
    rw [if_neg (fun hn => hn hcolon)]
    rcases h2 : rfindIdx '.' s.toList with _ | j <;> simp only [h2]
    · have hdot : '.' ∉ s.toList := rfindIdx_none_iff.mp h2
      rw [if_neg (fun hn => hdot hn.2), firstIdx_drop h1]
    · have hdot : '.' ∈ s.toList := by
        by_contra hc
        rw [rfindIdx_none_iff.mpr hc] at h2
        exact Option.noConfusion h2
      by_cases hri : ri = true
      · rw [if_neg (by simp [hri]), if_neg (by simp [hri]), firstIdx_drop h1]
      · rw [if_pos (by simp [hri]), if_pos ⟨by simp [hri], hdot⟩, rfindIdx_drop h2]

example : remove_model_name "model:Class.attr" = "attr" := by decide
example : remove_model_name "model:Class.attr" true = "Class_attr" := by decide
example : remove_model_name "plain" = "plain" := by decide
example : remove_model_name "a.b:c" = "b:c" := by decide
example : remove_model_name "a:b:c" = "b_c" := by decide

/-- `MivotInstance._is_leaf`: a dictionary is an ATTRIBUTE bundle iff
none of its immediate values is itself a dictionary. -/
def is_leaf (d : List (String × InVal)) : Bool :=
  d.all fun kv => match kv.2 with | .inst _ => false | _ => true

/-- Errors surfaced by construction and update: Python
`AttributeError` from `getattr`, the casting error raised by the
external typed-cast helper, `KeyError` from `row[ref]`, a `TypeError`
style failure when a non-string object is used as a row key, and the
`AttributeError` hit when a list element lacks an `update` method. -/
inductive VErr where
  | missingAttr (name : String)
  | castError (msg : String)
  | keyError (key : String)
  | attrError (name : String)
  | typeError
deriving DecidableEq, Repr

/-- Python `str.replace("year", "yr")`: leftmost, non-overlapping. -/
def replace_year : List Char → List Char
  | 'y' :: 'e' :: 'a' :: 'r' :: rest => 'y' :: 'r' :: replace_year rest
  | c :: cs => c :: replace_year cs
  | [] => []

/-- The ATTRIBUTE arm of `_create_class` (the `else` of the
`isinstance` tests): store the scalar under its normalized name —
casting it via the external helper against the already-stored `dmtype`
when the key is exactly `value` — and, when the key is `unit`, rewrite
`"year"` to `"yr"` in a local variable only and attach
`astropy_unit` / `astropy_unit_time` on a table hit. -/
def attr_step (cast : String → Node → Except String PyVal)
    (units tfs : List String) (self : Obj) (key s : String) : Except VErr Obj :=
  let stored : Except VErr Obj :=
    if key = "value" then
      match getattr_opt self "dmtype" with
      | none => .error (.missingAttr "dmtype")
      | some dn =>
        match cast s dn with
        | .error m => .error (.castError m)
        | .ok c => .ok (setattr self (remove_model_name key) (.scalar c))
    else
      .ok (setattr self (remove_model_name key) (.scalar (.vstr (remove_model_name s))))
  match stored with
  | .error e => .error e
  | .ok base =>
    if key = "unit" then
      if s ≠ "" then
        let v2 := String.mk (replace_year s.toList)
        if v2 ∈ units then .ok (setattr base "astropy_unit" (.scalar (.astropyUnit v2)))
        else if v2 ∈ tfs then .ok (setattr base "astropy_unit_time" (.scalar (.vstr v2)))
        else .ok base
      else .ok base
    else .ok base

mutual

/-- `MivotInstance._create_class`: fold the input dictionary in order,
growing `self`'s `__dict__` one entry at a time. -/
def create_class (cast : String → Node → Except String PyVal)
    (units tfs : List String) (self : Obj) :
    List (String × InVal) → Except VErr Obj
  | [] => .ok self
  | (key, v) :: rest =>
    match create_one cast units tfs self key v with
    | .error e => .error e
    | .ok s1 => create_class cast units tfs s1 rest

/-- One `key, value` iteration of `_create_class`: COLLECTION for a
list value, INSTANCE for a dictionary value (role-normalized name when
the dictionary is not a leaf), ATTRIBUTE otherwise. -/
def create_one (cast : String → Node → Except String PyVal)
    (units tfs : List String) (self : Obj) (key : String) :
    InVal → Except VErr Obj
  | .coll items =>
    match create_items cast units tfs items with
    | .error e => .error e
    | .ok subs => .ok (setattr self (remove_model_name key) (.coll subs))
  | .inst d =>
    match create_class cast units tfs [] d with
    | .error e => .error e
    | .ok sub =>
      if ¬ is_leaf d then .ok (setattr self (remove_model_name key true) (.inst sub))
      else .ok (setattr self (remove_model_name key) (.inst sub))
  | .scalar s => attr_step cast units tfs self key s

/-- Build each collection item (`MivotInstance(**item)`) and append in
input order. -/
def create_items (cast : String → Node → Except String PyVal)
    (units tfs : List String) :
    List (List (String × InVal)) → Except VErr (List Node)
  | [] => .ok []
  | d :: rest =>
    match create_class cast units tfs [] d with
    | .error e => .error e
    | .ok f =>
      match create_items cast units tfs rest with
      | .error e => .error e
      | .ok others => .ok (.inst f :: others)

end

/-- The guard `ref is not None and ref != 'null'` of `update`: the
passed reference object is live unless it is Python `None` or the
string sentinel `'null'`. -/
def ref_active : Option Node → Bool
  | none => false
  | some (.scalar .vnone) => false
  | some (.scalar (.vstr s)) => s ≠ "null"
  | some _ => true

/-- The string usable as a row key from a passed reference object;
`none` when the object is not a string (in which case `row[ref]`
fails). -/
def ref_string : Option Node → Option String
  | some (.scalar (.vstr s)) => some s
  | _ => none

/-- `row[ref]`: reference-keyed scalar lookup on the data row. -/
def row_lookup : List (String × String) → String → Option String
  | [], _ => none
  | kv :: rest, k => if kv.1 = k then some kv.2 else row_lookup rest k

mutual

/-- `MivotInstance.update`, iterating `vars(self).items()`. An error
result carries the partially mutated field list (fields before the
failing one keep their freshly written values, the rest are
untouched), mirroring the in-place semantics with no rollback. -/
def update_fields (cast : String → Node → Except String PyVal)
    (row : List (String × String)) (ref : Option Node) (self : Obj) :
    List (String × Node) → Except (VErr × List (String × Node)) (List (String × Node))
  | [] => .ok []
  | (key, n) :: rest =>
    match update_entry cast row ref self key n with
    | .error (e, n') => .error (e, (key, n') :: rest)
    | .ok n' =>
      match update_fields cast row ref self rest with
      | .error (e, rest') => .error (e, (key, n') :: rest')
      | .ok rest' => .ok ((key, n') :: rest')

/-- One `key, value` iteration of `update`: recurse into lists with no
reference, recurse into sub-instances passing the sub-instance's own
`ref` attribute exactly when it has a `value` attribute, and rewrite a
scalar only when the key is `value` and the passed reference is live. -/
def update_entry (cast : String → Node → Except String PyVal)
    (row : List (String × String)) (ref : Option Node) (self : Obj) (key : String) :
    Node → Except (VErr × Node) Node
  | .coll items =>
    match update_items cast row items with
    | .error (e, items') => .error (e, .coll items')
    | .ok items' => .ok (.coll items')
  | .inst sub =>
    if (getattr_opt sub "value").isSome then
      match getattr_opt sub "ref" with
      | none => .error (.missingAttr "ref", .inst sub)
      | some r =>
        match update_fields cast row (some r) sub sub with
        | .error (e, sub') => .error (e, .inst sub')
        | .ok sub' => .ok (.inst sub')
    else
      match update_fields cast row none sub sub with
      | .error (e, sub') => .error (e, .inst sub')
      | .ok sub' => .ok (.inst sub')
  | .scalar v =>
    if key = "value" ∧ ref_active ref then
      match ref_string ref with
      | none => .error (.typeError, .scalar v)
      | some rs =>
        match row_lookup row rs with
        | none => .error (.keyError rs, .scalar v)
        | some raw =>
          match getattr_opt self "dmtype" with
          | none => .error (.missingAttr "dmtype", .scalar v)
          | some dn =>
            match cast raw dn with
            | .error m => .error (.castError m, .scalar v)
            | .ok c => .ok (.scalar c)
    else .ok (.scalar v)

/-- `for item in value: item.update(row=row)` — every element of a list
field is updated with the same row and no reference; a non-instance
element has no `update` method. -/
def update_items (cast : String → Node → Except String PyVal)
    (row : List (String × String)) :
    List Node → Except (VErr × List Node) (List Node)
  | [] => .ok []
  | item :: rest =>
    match item with
    | .inst sub =>
      match update_fields cast row none sub sub with
      | .error (e, sub') => .error (e, .inst sub' :: rest)
      | .ok sub' =>
        match update_items cast row rest with
        | .error (e, rest') => .error (e, .inst sub' :: rest')
        | .ok rest' => .ok (.inst sub' :: rest')
    | other => .error (.attrError "update", other :: rest)

end

/-- `update` invoked on a whole MivotInstance: iterate its own
`__dict__` (which is also where `dmtype` is looked up). -/
def update (cast : String → Node → Except String PyVal)
    (row : List (String × String)) (ref : Option Node) (fields : Obj) :
    Except (VErr × Obj) Obj :=
  update_fields cast row ref fields fields

/-- The plain-data tree produced by `_get_class_dict`: nested
dictionaries, lists and scalars. -/
inductive ProjVal where
  | scalar (v : PyVal)
  | obj (fields : List (String × ProjVal))
  | arr (items : List ProjVal)
deriving Repr

/-- `hk_parameters` of the source: leaf parameters hidden from the
final user by the slim projection. -/
def hk_parameters : List String := ["astropy_unit", "ref"]

/-- Python `dict.pop(k, None)` on an insertion-ordered mapping. -/
def remove_key (k : String) : List (String × ProjVal) → List (String × ProjVal)
  | [] => []
  | kv :: rest => if kv.1 = k then rest else kv :: remove_key k rest

/-- `k in data`. -/
def has_key (l : List (String × ProjVal)) (k : String) : Bool :=
  l.any (·.1 = k)

/-- `data[k]` as an optional lookup. -/
def lookup_proj : List (String × ProjVal) → String → Option ProjVal
  | [], _ => none
  | kv :: rest, k => if kv.1 = k then some kv.2 else lookup_proj rest k

/-- Python falsiness (`not data["unit"]`) of a projected value. -/
def is_falsy : ProjVal → Bool
  | .scalar (.vstr s) => s = ""
  | .scalar .vnone => true
  | .scalar (.vfloat q) => q = 0
  | .scalar (.astropyUnit _) => false
  | .obj fs => fs.isEmpty
  | .arr xs => xs.isEmpty

/-- `if "ref" in data or "value" in data: data.pop("dmtype", None)`. -/
def slim_stage1 (data : List (String × ProjVal)) : List (String × ProjVal) :=
  if has_key data "ref" ∨ has_key data "value" then remove_key "dmtype" data else data

/-- `if "unit" in data and not data["unit"]: data.pop("unit", None)`. -/
def slim_stage2 (data : List (String × ProjVal)) : List (String × ProjVal) :=
  match lookup_proj data "unit" with
  | some v => if is_falsy v then remove_key "unit" data else data
  | none => data

/-- The housekeeping elision of `_get_class_dict` in slim mode: drop
`dmtype` when a `ref` or `value` key is present, drop a falsy `unit`,
then pop every name in `hk_parameters` (`astropy_unit` and `ref` — and
nothing else). -/
def slim_elide (data : List (String × ProjVal)) : List (String × ProjVal) :=
  remove_key "ref" (remove_key "astropy_unit" (slim_stage2 (slim_stage1 data)))

/-- Python `key.startswith('_')`: the first character is an
underscore. -/
def starts_underscore (k : String) : Bool :=
  match k.toList with
  | [] => false
  | c :: _ => c = '_'

mutual

/-- `MivotInstance._get_class_dict` on a field value: scalars come back
as themselves, lists recurse elementwise, and objects project their
`__dict__` (dropping callables — none here — and underscore-prefixed
keys), applying the slim elision when requested. -/
def get_class_dict (slim : Bool) : Node → ProjVal
  | .scalar v => .scalar v
  | .coll items => .arr (proj_list slim items)
  | .inst fields =>
    .obj (if slim then slim_elide (proj_fields slim fields) else proj_fields slim fields)

/-- Elementwise projection of a list field. -/
def proj_list (slim : Bool) : List Node → List ProjVal
  | [] => []
  | n :: rest => get_class_dict slim n :: proj_list slim rest

/-- The dictionary comprehension over `obj.__dict__.items()`, skipping
keys that start with an underscore. -/
def proj_fields (slim : Bool) : List (String × Node) → List (String × ProjVal)
  | [] => []
  | (k, n) :: rest =>
    if starts_underscore k then proj_fields slim rest
    else (k, get_class_dict slim n) :: proj_fields slim rest

end

/-- Projection of a whole MivotInstance (the top-level call
`_get_class_dict(self, slim=...)`). -/
def proj_obj (slim : Bool) (fields : Obj) : List (String × ProjVal) :=
  if slim then slim_elide (proj_fields slim fields) else proj_fields slim fields

/-- The `hk_dict` property: full projection, housekeeping kept. -/
def hk_dict (fields : Obj) : List (String × ProjVal) := proj_obj false fields

/-- The `dict` property: slim projection. -/
def slim_dict (fields : Obj) : List (String × ProjVal) := proj_obj true fields

/-- Digits of a decimal literal as a natural number. -/
def parseDigits (cs : List Char) : Option Nat :=
  if cs ≠ [] ∧ cs.all Char.isDigit then
    some (cs.foldl (fun acc c => 10 * acc + (c.toNat - 48)) 0)
  else none

/-- Split a character list at the first dot. -/
def decSplit : List Char → List Char × List Char
  | [] => ([], [])
  | c :: cs => if c = '.' then ([], c :: cs) else ((decSplit cs).1.cons c, (decSplit cs).2)

/-- A decimal literal `w` or `w.f` as an exact rational. -/
def parseDecimal (s : String) : Option Rat :=
  match decSplit s.toList with
  | (w, []) => (parseDigits w).map (fun n => (n : Rat))
  | (w, _ :: f) =>
    if f.contains '.' then none
    else
      match parseDigits w, parseDigits f with
      | some a, some b => some ((a : Rat) + (b : Rat) / (10 : Rat) ^ f.length)
      | _, _ => none

/-- Modelled from the spec: the external typed-cast helper
`MivotUtils.cast_type_value(raw_value, declared_type)` (module
`pyvo.mivot.utils.mivot_utils`, not part of this component), which
"casts raw cell values" to the declared scientific datatype and "may
fail with a casting error on type mismatch". The only datatype the
claims exercise is `float`; other string datatypes keep the raw string,
and a non-string declared type is a cast failure. -/
def cast_type_value (raw : String) (dmtype : Node) : Except String PyVal :=
  match dmtype with
  | .scalar (.vstr "float") =>
    match parseDecimal raw with
    | some q => .ok (.vfloat q)
    | none => .error ("cannot cast " ++ raw)
  | .scalar (.vstr _) => .ok (.vstr raw)
  | _ => .error "invalid dmtype"

example : cast_type_value "3.5" (.scalar (.vstr "float")) = .ok (.vfloat (7/2)) := by
  simp [cast_type_value, parseDecimal, decSplit, parseDigits]
  norm_num

theorem getattr_setattr_self (o : Obj) (k : String) (n : Node) :
    getattr_opt (setattr o k n) k = some n := by
  induction o with
  | nil => simp [setattr, getattr_opt]
  | cons kv rest ih =>
    by_cases h : kv.1 = k
    · simp [setattr, getattr_opt, h]
    · simp [setattr, getattr_opt, h, ih]

theorem getattr_setattr_other (o : Obj) (k k' : String) (n : Node) (h : k' ≠ k) :
    getattr_opt (setattr o k n) k' = getattr_opt o k' := by
  induction o with
  | nil => simp [setattr, getattr_opt, Ne.symm h]
  | cons kv rest ih =>
    by_cases hk : kv.1 = k
    · simp [setattr, getattr_opt, hk, Ne.symm h]
    · simp only [setattr, if_neg hk, getattr_opt]
      by_cases hk' : kv.1 = k' <;> simp [hk', ih]

/-- C3, counterexample: the claim says that for a token with a colon,
everything up to and including the first colon is stripped and (with no
dot after the colon, `role_instance` false) the remainder `"c"` is the
result; the code's `rfind` searches the whole token, so the dot of
`"a.b"` before the colon wins and the colon is kept. -/
theorem claim_C3_cex :
    remove_model_name "a.b:c" = "b:c" ∧ ("b:c" : String) ≠ "c" :=
  ⟨by decide, by decide⟩

/-- C3 (amended): `normalize` leaves colon-free tokens unchanged; when a
colon is present, if `role_instance` is false and a dot occurs anywhere
in the token (also before the colon), the trailing segment after the
last dot of the whole token is kept; otherwise the remainder after the
first colon is kept with all its colons and dots replaced by
underscores.  `normalize("model:Class.attr") = "attr"`,
`normalize("model:Class.attr", role_instance=True) = "Class_attr"`,
`normalize("plain") = "plain"`. -/
theorem claim_C3 :
    (∀ (s : String) (ri : Bool), remove_model_name s ri = normalize_spec s ri)
    ∧ remove_model_name "model:Class.attr" = "attr"
    ∧ remove_model_name "model:Class.attr" true = "Class_attr"
    ∧ remove_model_name "plain" = "plain" :=
  ⟨remove_model_name_eq_spec, by decide, by decide, by decide⟩

/-- C1, counterexample: building a leaf from `{"unit": "mas/year"}` with
`"mas/yr"` in the unit table stores the raw string `"mas/year"`
unchanged (the claim says the stored raw string is the rewritten
`"mas/yr"`); only the table lookup uses the rewritten string. -/
theorem claim_C1_cex :
    create_class cast_type_value ["mas/yr"] [] [] [("unit", .scalar "mas/year")]
      = .ok [("unit", Node.scalar (.vstr "mas/year")),
             ("astropy_unit", Node.scalar (.astropyUnit "mas/yr"))]
    ∧ ("mas/year" : String) ≠ "mas/yr" :=
  ⟨rfl, by decide⟩

/-- C1 (amended): processing a dictionary entry `unit="mas/year"` stores
the raw unit string `"mas/year"` unchanged on the node; the trailing
`"year"` is rewritten to `"yr"` only in the local variable used for the
table lookups, so a derived `astropy_unit` field is attached whenever
`"mas/yr"` is in the static unit-name table.  When the rewritten string
matches neither the unit-name table nor the time-format table (and for
any non-empty unit string), only the raw string is stored and no
derived field is added, without raising an error. -/
theorem claim_C1 (cast : String → Node → Except String PyVal)
    (units tfs : List String) (self : Obj) (hmem : "mas/yr" ∈ units) :
    create_one cast units tfs self "unit" (.scalar "mas/year")
      = .ok (setattr (setattr self "unit" (.scalar (.vstr "mas/year")))
              "astropy_unit" (.scalar (.astropyUnit "mas/yr")))
    ∧ (∀ s : String, s ≠ "" →
        String.mk (replace_year s.toList) ∉ units →
        String.mk (replace_year s.toList) ∉ tfs →
        create_one cast units tfs self "unit" (.scalar s)
          = .ok (setattr self "unit" (.scalar (.vstr (remove_model_name s))))) := by
  have hu : remove_model_name "unit" = "unit" := by decide
  have hraw : remove_model_name "mas/year" = "mas/year" := by decide
  have hyr : String.mk (replace_year ['m', 'a', 's', '/', 'y', 'e', 'a', 'r']) = "mas/yr" := by
    decide
  constructor
  · simp [create_one, attr_step, hu, hraw, hyr, hmem]
  · intro s hs h1 h2
    have h1' : String.mk (replace_year s.data) ∉ units := h1
    have h2' : String.mk (replace_year s.data) ∉ tfs := h2
    simp [create_one, attr_step, hu, hs, h1', h2']

/-- C1, witness: the conditional branches of `claim_C1` realized at the
concrete tables `units = ["mas/yr"]`, `tfs = []`. -/
theorem claim_C1_witness :
    create_one cast_type_value ["mas/yr"] [] [] "unit" (.scalar "mas/year")
      = .ok (setattr (setattr [] "unit" (.scalar (.vstr "mas/year")))
              "astropy_unit" (.scalar (.astropyUnit "mas/yr"))) :=
  (claim_C1 cast_type_value ["mas/yr"] [] [] (by decide)).1

/-- The one-attribute-leaf tree of claim C2: an ATTRIBUTE node with
`dmtype="float"`, column binding `ref="c1"` and a current `value`. -/
def attribute_leaf (v : PyVal) : Obj :=
  [("dmtype", .scalar (.vstr "float")), ("ref", .scalar (.vstr "c1")),
   ("value", .scalar v)]

/-- C2: on a tree whose single attribute leaf is bound to column `"c1"`
with `dmtype="float"`, `update` with the row `{"c1": "3.5"}` and the
leaf's reference sets the leaf's `value` to the float `3.5` (the cast
of `row[ref]` by the typed-cast helper under the node's `dmtype`), and
likewise when the leaf sits inside a parent instance and `update` runs
on the parent with no reference (the leaf's own `ref` is passed down);
`update` on the leaf with `ref=None` or with the unbound sentinel
`'null'` leaves the `value` field unchanged, for every row. -/
theorem claim_C2 (v : PyVal) (row : List (String × String)) :
    update cast_type_value [("c1", "3.5")] (some (.scalar (.vstr "c1")))
        (attribute_leaf v)
      = .ok (attribute_leaf (.vfloat (7 / 2)))
    ∧ update cast_type_value [("c1", "3.5")] none [("pos", .inst (attribute_leaf v))]
      = .ok [("pos", .inst (attribute_leaf (.vfloat (7 / 2))))]
    ∧ update cast_type_value row none (attribute_leaf v) = .ok (attribute_leaf v)
    ∧ update cast_type_value row (some (.scalar (.vstr "null"))) (attribute_leaf v)
      = .ok (attribute_leaf v) := by
  refine ⟨?_, ?_, ?_, ?_⟩
  · simp [update, update_fields, update_entry, attribute_leaf, ref_active,
      ref_string, row_lookup, getattr_opt, cast_type_value, parseDecimal,
      decSplit, parseDigits]
    norm_num
  · simp [update, update_fields, update_entry, attribute_leaf, ref_active,
      ref_string, row_lookup, getattr_opt, cast_type_value, parseDecimal,
      decSplit, parseDigits]
    norm_num
  · simp [update, update_fields, update_entry, attribute_leaf, ref_active]
  · simp [update, update_fields, update_entry, attribute_leaf, ref_active]

/-- C9: a `value` entry iterated before any `dmtype` entry makes the
builder look up the still-missing `dmtype` attribute, so construction
surfaces a missing-attribute error (no explicit shape check); when
`dmtype` precedes `value`, the stored value is exactly the cast of the
raw scalar to that (normalized) dmtype. -/
theorem claim_C9 (cast : String → Node → Except String PyVal)
    (units tfs : List String) (s : String) (rest : List (String × InVal)) :
    create_class cast units tfs [] (("value", .scalar s) :: rest)
      = .error (.missingAttr "dmtype")
    ∧ (∀ (t raw : String) (c : PyVal),
        cast raw (.scalar (.vstr (remove_model_name t))) = .ok c →
        create_class cast units tfs [] [("dmtype", .scalar t), ("value", .scalar raw)]
          = .ok [("dmtype", .scalar (.vstr (remove_model_name t))),
                 ("value", .scalar c)]) := by
  have hd : remove_model_name "dmtype" = "dmtype" := by decide
  have hv : remove_model_name "value" = "value" := by decide
  constructor
  · simp [create_class, create_one, attr_step, getattr_opt]
  · intro t raw c hcast
    simp [create_class, create_one, attr_step, hd, hv, setattr, getattr_opt, hcast]

/-- C9, witness: both branches at `dmtype="float"`, raw value `"3.5"`
and the spec-modelled cast helper. -/
theorem claim_C9_witness :
    create_class cast_type_value [] [] [] [("value", .scalar "3.5")]
      = .error (.missingAttr "dmtype")
    ∧ create_class cast_type_value [] [] []
        [("dmtype", .scalar "float"), ("value", .scalar "3.5")]
      = .ok [("dmtype", .scalar (.vstr "float")), ("value", .scalar (.vfloat (7 / 2)))] := by
  have hf : remove_model_name "float" = "float" := by decide
  have hcast : cast_type_value "3.5" (.scalar (.vstr (remove_model_name "float")))
      = .ok (.vfloat (7 / 2)) := by
    rw [hf]
    simp [cast_type_value, parseDecimal, decSplit, parseDigits]
    norm_num
  refine ⟨(claim_C9 cast_type_value [] [] "3.5" []).1, ?_⟩
  have h2 := (claim_C9 cast_type_value [] [] "3.5" []).2 "float" "3.5" (.vfloat (7 / 2)) hcast
  rw [hf] at h2
  exact h2

/-- C10: `update` descending into a sub-node that has a `value` field
unconditionally reads the sub-node's `ref` field to pass it down, so a
sub-node with `value` but no `ref` raises a missing-attribute error
(before any mutation of that sub-node). -/
theorem claim_C10 (cast : String → Node → Except String PyVal)
    (row : List (String × String)) (ref : Option Node) (self : Obj)
    (k : String) (sub : Obj) (rest : List (String × Node))
    (hval : (getattr_opt sub "value").isSome = true)
    (href : getattr_opt sub "ref" = none) :
    update_fields cast row ref self ((k, .inst sub) :: rest)
      = .error (.missingAttr "ref", (k, .inst sub) :: rest) := by
  simp [update_fields, update_entry, hval, href]

/-- C10, witness: a parent whose sub-node carries `value` but no
`ref`. -/
theorem claim_C10_witness :
    (getattr_opt [("value", Node.scalar .vnone)] "value").isSome = true
    ∧ getattr_opt [("value", Node.scalar .vnone)] "ref" = none
    ∧ update_fields cast_type_value [] none [("a", .inst [("value", Node.scalar .vnone)])]
        [("a", .inst [("value", Node.scalar .vnone)])]
      = .error (.missingAttr "ref", [("a", .inst [("value", Node.scalar .vnone)])]) :=
  ⟨rfl, rfl,
   claim_C10 cast_type_value [] none [("a", .inst [("value", Node.scalar .vnone)])]
     "a" [("value", Node.scalar .vnone)] [] rfl rfl⟩

/-- An attribute leaf bound to an arbitrary column, used by claim C8. -/
def float_leaf (r : String) (v : PyVal) : Obj :=
  [("dmtype", .scalar (.vstr "float")), ("ref", .scalar (.vstr r)),
   ("value", .scalar v)]

/-- C8: when the typed-cast helper raises a casting error on a row
value during `update`, the error propagates unmodified (the message is
exactly the helper's) to the caller, and the tree is left partially
mutated: the leaf updated before the failing one keeps its freshly
cast value, with no rollback.  Here leaf `a` (column `c1`) is rewritten
to the float `3.5` before leaf `b` (column `c2`) fails on the uncastable
cell `"oops"`. -/
theorem claim_C8 :
    cast_type_value "oops" (.scalar (.vstr "float")) = .error "cannot cast oops"
    ∧ update cast_type_value [("c1", "3.5"), ("c2", "oops")] none
        [("a", .inst (float_leaf "c1" .vnone)), ("b", .inst (float_leaf "c2" .vnone))]
      = .error (.castError "cannot cast oops",
          [("a", .inst (float_leaf "c1" (.vfloat (7 / 2)))),
           ("b", .inst (float_leaf "c2" .vnone))]) := by
  constructor
  · simp [cast_type_value, parseDecimal, decSplit, parseDigits]
  · simp [update, update_fields, update_entry, float_leaf, ref_active,
      ref_string, row_lookup, getattr_opt, cast_type_value, parseDecimal,
      decSplit, parseDigits]
    norm_num

mutual

/-- A field list with every scalar `value` field blanked out: two field
lists are equal under `erase_values` exactly when they have the same
keys in the same order, the same collection lengths and order, and
identical contents everywhere except possibly in scalar `value`
fields. -/
def erase_values : List (String × Node) → List (String × Node)
  | [] => []
  | (k, n) :: rest => (k, erase_val k n) :: erase_values rest

/-- Blank a scalar field exactly when its key is `value`. -/
def erase_val (k : String) : Node → Node
  | .scalar v => if k = "value" then .scalar .vnone else .scalar v
  | .inst sub => .inst (erase_values sub)
  | .coll items => .coll (erase_items items)

/-- Blank `value` fields inside every instance of a list. -/
def erase_items : List Node → List Node
  | [] => []
  | n :: rest => erase_top n :: erase_items rest

/-- Blank `value` fields of a list element (an instance; anything else
is returned unchanged). -/
def erase_top : Node → Node
  | .inst sub => .inst (erase_values sub)
  | .scalar v => .scalar v
  | .coll items => .coll items

end

theorem update_fields_frame (cast : String → Node → Except String PyVal)
    (row : List (String × String)) (ref : Option Node) (self : Obj)
    (l : List (String × Node)) :
    ∀ l', update_fields cast row ref self l = .ok l' → erase_values l' = erase_values l := by
  refine update_fields.induct cast row
    (fun ref self l => ∀ l', update_fields cast row ref self l = .ok l' →
      erase_values l' = erase_values l)
    (fun ref self key n => ∀ n', update_entry cast row ref self key n = .ok n' →
      erase_val key n' = erase_val key n)
    (fun items => ∀ items', update_items cast row items = .ok items' →
      erase_items items' = erase_items items)
    ?_ ?_ ?_ ?_ ?_ ?_ ?_ ?_ ?_ ?_ ?_ ?_ ?_ ?_ ?_ ?_ ?_ ?_ ?_ ?_ ?_ ?_ ref self l
  · intro ref self key items e items' h _ n' hn'
    simp [update_entry, h] at hn'
  · intro ref self key items items' h ih n' hn'
    simp only [update_entry, h] at hn'
    injection hn' with h2
    subst h2
    simp [erase_val, ih items' h]
  · intro ref self key sub hval href n' hn'
    simp [update_entry, hval, href] at hn'
  · intro ref self key sub hval dn href e rest' herr _ n' hn'
    simp [update_entry, hval, href, herr] at hn'
  · intro ref self key sub hval dn href rest' hok ih n' hn'
    simp [update_entry, hval, href, hok] at hn'
    subst hn'
    simp [erase_val, ih rest' hok]
  · intro ref self key sub hnval e rest' herr _ n' hn'
    simp [update_entry, hnval, herr] at hn'
  · intro ref self key sub hnval rest' hok ih n' hn'
    simp [update_entry, hnval, hok] at hn'
    subst hn'
    simp [erase_val, ih rest' hok]
  · intro ref self key v hguard hrs n' hn'
    simp [update_entry, hguard, hrs] at hn'
  · intro ref self key v hguard raw hrs hrow n' hn'
    simp [update_entry, hguard, hrs, hrow] at hn'
  · intro ref self key v hguard raw hrs raw1 hrow hdm n' hn'
    simp [update_entry, hguard, hrs, hrow, hdm] at hn'
  · intro ref self key v hguard raw hrs raw1 hrow dn hdn m hcast n' hn'
    simp [update_entry, hguard, hrs, hrow, hdn, hcast] at hn'
  · intro ref self key v hguard raw hrs raw1 hrow dn hdn c hcast n' hn'
    obtain ⟨hk, hra⟩ := hguard
    subst hk
    simp [update_entry, hra, hrs, hrow, hdn, hcast] at hn'
    subst hn'
    simp [erase_val]
  · intro ref self key v hng n' hn'
    simp only [update_entry, if_neg hng] at hn'
    injection hn' with h2
    subst h2
    rfl
  · intro ref self l' hl'
    simp only [update_fields] at hl'
    injection hl' with h2
    subst h2
    rfl
  · intro ref self key n rest e n' herr _ l' hl'
    simp [update_fields, herr] at hl'
  · intro ref self key n rest n' hok e rest' herr _ _ l' hl'
    simp [update_fields, hok, herr] at hl'
  · intro ref self key n rest n' hok rest' hrest ih2 ih1 l' hl'
    simp only [update_fields, hok, hrest] at hl'
    injection hl' with h2
    subst h2
    simp [erase_values, ih2 n' hok, ih1 rest' hrest]
  · intro items' hitems'
    simp only [update_items] at hitems'
    injection hitems' with h2
    subst h2
    rfl
  · intro rest sub e rest' herr _ items' hitems'
    simp [update_items, herr] at hitems'
  · intro rest sub rest' hok e items' herr _ _ items'' hitems''
    simp [update_items, hok, herr] at hitems''
  · intro rest sub rest' hok items' hitems ih1 ih3 items'' hitems''
    simp only [update_items, hok, hitems] at hitems''
    injection hitems'' with h2
    subst h2
    simp [erase_items, erase_top, ih1 rest' hok, ih3 items' hitems]
  · intro rest other hnot items' hitems'
    rcases other with v | sub | items
    · simp [update_items] at hitems'
    · exact absurd rfl (hnot sub)
    · simp [update_items] at hitems'

/-- C6: a successful `update` never alters the tree's structural shape
— every node keeps the same field names in the same order, every
collection keeps its length and order — and the only scalar fields
whose contents may change are the `value` fields; `dmtype`, `ref`,
`unit` and all other scalar fields are untouched.  This is exactly the
statement that the tree is unchanged under `erase_values`, which blanks
scalar `value` fields and keeps everything else. -/
theorem claim_C6 (cast : String → Node → Except String PyVal)
    (row : List (String × String)) (ref : Option Node) (fields fields' : Obj)
    (h : update cast row ref fields = .ok fields') :
    erase_values fields' = erase_values fields :=
  update_fields_frame cast row ref fields fields fields' h

/-- C6, witness: a concrete successful update. -/
theorem claim_C6_witness :
    update cast_type_value [("c1", "3.5")] none (attribute_leaf .vnone)
        = .ok (attribute_leaf .vnone)
    ∧ erase_values (attribute_leaf .vnone) = erase_values (attribute_leaf .vnone) :=
  ⟨by simp [update, update_fields, update_entry, attribute_leaf, ref_active],
   claim_C6 cast_type_value [("c1", "3.5")] none (attribute_leaf .vnone)
     (attribute_leaf .vnone)
     (by simp [update, update_fields, update_entry, attribute_leaf, ref_active])⟩

theorem create_items_forall2 (cast : String → Node → Except String PyVal)
    (units tfs : List String) :
    ∀ (items : List (List (String × InVal))) (L : List Node),
      create_items cast units tfs items = .ok L →
      List.Forall₂ (fun d n => ∃ f, create_class cast units tfs [] d = .ok f ∧ n = .inst f)
        items L := by
  intro items
  induction items with
  | nil =>
    intro L h
    simp only [create_items] at h
    injection h with h2
    subst h2
    exact .nil
  | cons d rest ih =>
    intro L h
    simp only [create_items] at h
    rcases hf : create_class cast units tfs [] d with e | f
    · rw [hf] at h
      exact Except.noConfusion h
    · rw [hf] at h
      rcases hr : create_items cast units tfs rest with e | others
      · rw [hr] at h
        exact Except.noConfusion h
      · rw [hr] at h
        injection h with h2
        subst h2
        exact .cons ⟨f, hf, rfl⟩ (ih others hr)

theorem update_items_forall2 (cast : String → Node → Except String PyVal)
    (row : List (String × String)) :
    ∀ (L L' : List Node), update_items cast row L = .ok L' →
      List.Forall₂ (fun n n' => ∃ sub sub', n = .inst sub ∧ n' = .inst sub'
        ∧ update_fields cast row none sub sub = .ok sub') L L' := by
  intro L
  induction L with
  | nil =>
    intro L' h
    simp only [update_items] at h
    injection h with h2
    subst h2
    exact .nil
  | cons item rest ih =>
    intro L' h
    rcases item with v | sub | items
    · simp [update_items] at h
    · simp only [update_items] at h
      rcases hs : update_fields cast row none sub sub with ⟨e, sub'⟩ | sub'
      · rw [hs] at h
        exact Except.noConfusion h
      · rw [hs] at h
        rcases hr : update_items cast row rest with ⟨e, rest'⟩ | rest'
        · rw [hr] at h
          exact Except.noConfusion h
        · rw [hr] at h
          injection h with h2
          subst h2
          exact .cons ⟨sub, sub', rfl, rfl, hs⟩ (ih rest' hr)
    · simp [update_items] at h

/-- C7: a dictionary entry whose value is an ordered sequence of N item
dictionaries builds to a field (under the normalized key) holding
exactly N child instances, one per item in input order; and a
subsequent `update` recursively updates all N children with the same
row, passing no reference down to them (each child uses nothing but its
own bindings). -/
theorem claim_C7 (cast : String → Node → Except String PyVal)
    (units tfs : List String) (self : Obj) (k : String)
    (items : List (List (String × InVal))) (self' : Obj)
    (hbuild : create_one cast units tfs self k (.coll items) = .ok self')
    (row : List (String × String)) :
    (∃ L, getattr_opt self' (remove_model_name k) = some (.coll L)
        ∧ L.length = items.length
        ∧ List.Forall₂
            (fun d n => ∃ f, create_class cast units tfs [] d = .ok f ∧ n = .inst f)
            items L)
    ∧ (∀ (ref : Option Node) (L : List Node) (rest out : List (String × Node)),
        update_fields cast row ref self ((k, .coll L) :: rest) = .ok out →
        ∃ L' rest', out = (k, .coll L') :: rest'
          ∧ L'.length = L.length
          ∧ List.Forall₂
              (fun n n' => ∃ sub sub', n = .inst sub ∧ n' = .inst sub'
                ∧ update_fields cast row none sub sub = .ok sub') L L') := by
  constructor
  · simp only [create_one] at hbuild
    rcases hitems : create_items cast units tfs items with e | subs
    · rw [hitems] at hbuild
      exact Except.noConfusion hbuild
    · rw [hitems] at hbuild
      injection hbuild with h2
      subst h2
      have hf2 := create_items_forall2 cast units tfs items subs hitems
      exact ⟨subs, getattr_setattr_self _ _ _, hf2.length_eq.symm, hf2⟩
  · intro ref L rest out hupd
    simp only [update_fields, update_entry] at hupd
    rcases hL : update_items cast row L with ⟨e, L'⟩ | L'
    · rw [hL] at hupd
      exact Except.noConfusion hupd
    · rw [hL] at hupd
      rcases hrest : update_fields cast row ref self rest with ⟨e, rest'⟩ | rest'
      · rw [hrest] at hupd
        exact Except.noConfusion hupd
      · rw [hrest] at hupd
        injection hupd with h2
        subst h2
        have hf2 := update_items_forall2 cast row L L' hL
        exact ⟨L', rest', rfl, hf2.length_eq.symm, hf2⟩

/-- C7, witness: a two-item collection built and updated. -/
theorem claim_C7_witness :
    create_one cast_type_value [] [] [] "k"
        (.coll [[("x", InVal.scalar "1")], [("y", InVal.scalar "2")]])
      = .ok [("k", Node.coll [.inst [("x", Node.scalar (.vstr "1"))],
                              .inst [("y", Node.scalar (.vstr "2"))]])]
    ∧ ∃ L, getattr_opt [("k", Node.coll [.inst [("x", Node.scalar (.vstr "1"))],
                                         .inst [("y", Node.scalar (.vstr "2"))]])]
          (remove_model_name "k") = some (.coll L)
        ∧ L.length = 2
        ∧ List.Forall₂
            (fun d n => ∃ f, create_class cast_type_value [] [] [] d = .ok f ∧ n = .inst f)
            [[("x", InVal.scalar "1")], [("y", InVal.scalar "2")]] L := by
  refine ⟨rfl, ?_⟩
  have h := (claim_C7 cast_type_value [] [] [] "k"
    [[("x", InVal.scalar "1")], [("y", InVal.scalar "2")]]
    [("k", Node.coll [.inst [("x", Node.scalar (.vstr "1"))],
                      .inst [("y", Node.scalar (.vstr "2"))]])] rfl []).1
  simpa using h

theorem has_key_iff_mem (l : List (String × ProjVal)) (k : String) :
    has_key l k = true ↔ k ∈ l.map Prod.fst := by
  induction l with
  | nil => simp [has_key]
  | cons kv rest ih =>
    simp only [has_key, List.any_cons, Bool.or_eq_true, decide_eq_true_eq, List.map_cons,
      List.mem_cons]
    simp only [has_key] at ih
    rw [ih]
    constructor
    · rintro (h | h)
      · exact Or.inl h.symm
      · exact Or.inr h
    · rintro (h | h)
      · exact Or.inl h.symm
      · exact Or.inr h

theorem has_key_remove_key_other (l : List (String × ProjVal)) (k k' : String)
    (h : k' ≠ k) : has_key (remove_key k l) k' = has_key l k' := by
  induction l with
  | nil => rfl
  | cons kv rest ih =>
    by_cases hk : kv.1 = k
    · have hne : ¬ kv.1 = k' := by rw [hk]; exact Ne.symm h
      simp only [remove_key, if_pos hk, has_key, List.any_cons, decide_eq_false hne,
        Bool.false_or]
    · simp only [remove_key, if_neg hk, has_key, List.any_cons]
      simp only [has_key] at ih
      rw [ih]

theorem lookup_remove_key_other (l : List (String × ProjVal)) (k k' : String)
    (h : k' ≠ k) : lookup_proj (remove_key k l) k' = lookup_proj l k' := by
  induction l with
  | nil => rfl
  | cons kv rest ih =>
    by_cases hk : kv.1 = k
    · have hne : ¬ kv.1 = k' := by rw [hk]; exact Ne.symm h
      simp only [remove_key, if_pos hk, lookup_proj, if_neg hne]
    · simp only [remove_key, if_neg hk, lookup_proj]
      by_cases hk' : kv.1 = k' <;> simp [hk', ih]

theorem remove_key_keys_sublist (l : List (String × ProjVal)) (k : String) :
    ((remove_key k l).map Prod.fst).Sublist (l.map Prod.fst) := by
  induction l with
  | nil => simp [remove_key]
  | cons kv rest ih =>
    by_cases hk : kv.1 = k
    · simp only [remove_key, if_pos hk, List.map_cons]
      exact (List.sublist_cons_self _ _)
    · simp only [remove_key, if_neg hk, List.map_cons]
      exact ih.cons₂ _

theorem has_key_remove_key_self (l : List (String × ProjVal)) (k : String)
    (hnd : (l.map Prod.fst).Nodup) : has_key (remove_key k l) k = false := by
  induction l with
  | nil => rfl
  | cons kv rest ih =>
    simp only [List.map_cons, List.nodup_cons] at hnd
    by_cases hk : kv.1 = k
    · simp only [remove_key, if_pos hk]
      rw [← Bool.not_eq_true, has_key_iff_mem]
      rw [hk] at hnd
      exact hnd.1
    · simp only [remove_key, if_neg hk, has_key, List.any_cons]
      have := ih hnd.2
      simp only [has_key] at this
      simp [this, hk]

theorem slim_elide_spec (data : List (String × ProjVal))
    (hnd : (data.map Prod.fst).Nodup) :
    ((has_key data "ref" = true ∨ has_key data "value" = true) →
      has_key (slim_elide data) "dmtype" = false)
    ∧ (∀ v, lookup_proj data "unit" = some v → is_falsy v = true →
        has_key (slim_elide data) "unit" = false)
    ∧ has_key (slim_elide data) "astropy_unit" = false
    ∧ has_key (slim_elide data) "ref" = false
    ∧ (has_key data "astropy_unit_time" = true →
        has_key (slim_elide data) "astropy_unit_time" = true) := by
  have hnd1 : ((slim_stage1 data).map Prod.fst).Nodup := by
    unfold slim_stage1
    split
    · exact hnd.sublist (remove_key_keys_sublist data "dmtype")
    · exact hnd
  have hnd2 : ((slim_stage2 (slim_stage1 data)).map Prod.fst).Nodup := by
    unfold slim_stage2
    split
    · split
      · exact hnd1.sublist (remove_key_keys_sublist _ "unit")
      · exact hnd1
    · exact hnd1
  have hnd3 : ((remove_key "astropy_unit" (slim_stage2 (slim_stage1 data))).map Prod.fst).Nodup :=
    hnd2.sublist (remove_key_keys_sublist _ "astropy_unit")
  -- keys other than "unit" pass through stage 2 unchanged
  have hstage2 : ∀ k, k ≠ "unit" →
      has_key (slim_stage2 (slim_stage1 data)) k = has_key (slim_stage1 data) k := by
    intro k hk
    unfold slim_stage2
    split
    · split
      · exact has_key_remove_key_other _ _ _ hk
      · rfl
    · rfl
  -- keys other than "astropy_unit" and "ref" survive the final pops
  have hfinal : ∀ k, k ≠ "astropy_unit" → k ≠ "ref" →
      has_key (slim_elide data) k = has_key (slim_stage2 (slim_stage1 data)) k := by
    intro k h1 h2
    unfold slim_elide
    rw [has_key_remove_key_other _ _ _ h2, has_key_remove_key_other _ _ _ h1]
  refine ⟨?_, ?_, ?_, ?_, ?_⟩
  · intro hc
    have h1 : has_key (slim_stage1 data) "dmtype" = false := by
      unfold slim_stage1
      rw [if_pos (by simpa using hc)]
      exact has_key_remove_key_self data "dmtype" hnd
    rw [hfinal "dmtype" (by decide) (by decide), hstage2 "dmtype" (by decide)]
    exact h1
  · intro v hv hfalsy
    have hv1 : lookup_proj (slim_stage1 data) "unit" = some v := by
      unfold slim_stage1
      split
      · rw [lookup_remove_key_other _ _ _ (by decide)]
        exact hv
      · exact hv
    have h2 : has_key (slim_stage2 (slim_stage1 data)) "unit" = false := by
      unfold slim_stage2
      rw [hv1]
      simp only [if_pos hfalsy]
      exact has_key_remove_key_self _ "unit" hnd1
    rw [hfinal "unit" (by decide) (by decide)]
    exact h2
  · unfold slim_elide
    rw [has_key_remove_key_other _ _ _ (by decide)]
    exact has_key_remove_key_self _ "astropy_unit" hnd2
  · unfold slim_elide
    exact has_key_remove_key_self _ "ref" hnd3
  · intro hmem
    rw [hfinal "astropy_unit_time" (by decide) (by decide),
        hstage2 "astropy_unit_time" (by decide)]
    unfold slim_stage1
    split
    · rw [has_key_remove_key_other _ _ _ (by decide)]
      exact hmem
    · exact hmem

theorem getattr_mem_proj (slim : Bool) (F : Obj) (k : String) (n : Node)
    (h : getattr_opt F k = some n) (hns : starts_underscore k = false) :
    has_key (proj_fields slim F) k = true := by
  induction F with
  | nil => simp [getattr_opt] at h
  | cons kv rest ih =>
    obtain ⟨k0, n0⟩ := kv
    by_cases hk : k0 = k
    · subst hk
      simp only [proj_fields, hns, Bool.false_eq_true, if_false]
      simp [has_key]
    · simp only [getattr_opt, if_neg hk] at h
      have hrest := ih h
      by_cases hs : starts_underscore k0 = true
      · simpa [proj_fields, hs] using hrest
      · simp only [proj_fields, hs, Bool.false_eq_true, if_false]
        simp only [has_key, List.any_cons] at hrest ⊢
        simp [hrest]

/-- C4, counterexample: the derived astropy time-format tag
`astropy_unit_time` is not in `hk_parameters = ["astropy_unit", "ref"]`,
so the slim projection keeps it — the claim says slim drops both derived
fields.  A leaf with `unit="jd"` recognized as a time format projects in
slim mode with `astropy_unit_time` still present. -/
theorem claim_C4_cex :
    create_class cast_type_value [] ["jd"] []
        [("dmtype", .scalar "x"), ("unit", .scalar "jd")]
      = .ok [("dmtype", Node.scalar (.vstr "x")), ("unit", Node.scalar (.vstr "jd")),
             ("astropy_unit_time", Node.scalar (.vstr "jd"))]
    ∧ has_key (slim_dict
        [("dmtype", Node.scalar (.vstr "x")), ("unit", Node.scalar (.vstr "jd")),
         ("astropy_unit_time", Node.scalar (.vstr "jd"))]) "astropy_unit_time" = true :=
  ⟨rfl, rfl⟩

/-- C4 (amended): on a field list with distinct projected keys, the slim
projection drops `dmtype` whenever a `ref` or `value` key is present,
drops `unit` whenever its projected value is falsy, and always drops
the housekeeping fields `astropy_unit` and `ref`; the derived astropy
time-format tag `astropy_unit_time` is NOT dropped (it is missing from
`hk_parameters`); the full (non-slim) projection keeps every field
whose name does not start with an underscore, housekeeping included. -/
theorem claim_C4 (F : Obj) (hnd : ((proj_fields true F).map Prod.fst).Nodup) :
    ((has_key (proj_fields true F) "ref" = true ∨
        has_key (proj_fields true F) "value" = true) →
      has_key (slim_dict F) "dmtype" = false)
    ∧ (∀ v, lookup_proj (proj_fields true F) "unit" = some v → is_falsy v = true →
        has_key (slim_dict F) "unit" = false)
    ∧ has_key (slim_dict F) "astropy_unit" = false
    ∧ has_key (slim_dict F) "ref" = false
    ∧ (has_key (proj_fields true F) "astropy_unit_time" = true →
        has_key (slim_dict F) "astropy_unit_time" = true)
    ∧ (∀ k n, getattr_opt F k = some n → starts_underscore k = false →
        has_key (hk_dict F) k = true) := by
  obtain ⟨h1, h2, h3, h4, h5⟩ := slim_elide_spec (proj_fields true F) hnd
  exact ⟨h1, h2, h3, h4, h5, fun k n h hns => getattr_mem_proj false F k n h hns⟩

/-- C4, witness: a leaf carrying every housekeeping field, with empty
unit. -/
theorem claim_C4_witness :
    ((proj_fields true
        [("dmtype", Node.scalar (.vstr "float")), ("ref", Node.scalar (.vstr "c1")),
         ("value", Node.scalar .vnone), ("unit", Node.scalar (.vstr "")),
         ("astropy_unit", Node.scalar (.astropyUnit "mas/yr")),
         ("astropy_unit_time", Node.scalar (.vstr "jd"))]).map Prod.fst).Nodup
    ∧ has_key (slim_dict
        [("dmtype", Node.scalar (.vstr "float")), ("ref", Node.scalar (.vstr "c1")),
         ("value", Node.scalar .vnone), ("unit", Node.scalar (.vstr "")),
         ("astropy_unit", Node.scalar (.astropyUnit "mas/yr")),
         ("astropy_unit_time", Node.scalar (.vstr "jd"))]) "dmtype" = false
    ∧ has_key (slim_dict
        [("dmtype", Node.scalar (.vstr "float")), ("ref", Node.scalar (.vstr "c1")),
         ("value", Node.scalar .vnone), ("unit", Node.scalar (.vstr "")),
         ("astropy_unit", Node.scalar (.astropyUnit "mas/yr")),
         ("astropy_unit_time", Node.scalar (.vstr "jd"))]) "astropy_unit" = false
    ∧ has_key (slim_dict
        [("dmtype", Node.scalar (.vstr "float")), ("ref", Node.scalar (.vstr "c1")),
         ("value", Node.scalar .vnone), ("unit", Node.scalar (.vstr "")),
         ("astropy_unit", Node.scalar (.astropyUnit "mas/yr")),
         ("astropy_unit_time", Node.scalar (.vstr "jd"))]) "astropy_unit_time" = true := by
  have hnd : ((proj_fields true
      [("dmtype", Node.scalar (.vstr "float")), ("ref", Node.scalar (.vstr "c1")),
       ("value", Node.scalar .vnone), ("unit", Node.scalar (.vstr "")),
       ("astropy_unit", Node.scalar (.astropyUnit "mas/yr")),
       ("astropy_unit_time", Node.scalar (.vstr "jd"))]).map Prod.fst).Nodup := by
    decide
  obtain ⟨h1, _, h3, _, h5, _⟩ := claim_C4
    [("dmtype", Node.scalar (.vstr "float")), ("ref", Node.scalar (.vstr "c1")),
     ("value", Node.scalar .vnone), ("unit", Node.scalar (.vstr "")),
     ("astropy_unit", Node.scalar (.astropyUnit "mas/yr")),
     ("astropy_unit_time", Node.scalar (.vstr "jd"))] hnd
  exact ⟨hnd, h1 (Or.inl rfl), h3, h5 rfl⟩

/-- The normalized name under which `_create_class` stores a dictionary
entry: role-normalized for a non-leaf sub-dictionary (INSTANCE of
INSTANCEs), plainly normalized otherwise. -/
def good_key : String × InVal → String
  | (k, .inst d) => if ¬ is_leaf d then remove_model_name k true else remove_model_name k
  | (k, _) => remove_model_name k

/-- The per-dictionary (non-recursive) well-formedness used by the
round-trip theorem: all entries store under pairwise-distinct names,
none of them underscore-prefixed and none colliding with the derived
unit fields. -/
def good_flat (D : List (String × InVal)) : Prop :=
  (D.map good_key).Nodup
  ∧ (∀ kv ∈ D, starts_underscore (good_key kv) = false)
  ∧ (∀ kv ∈ D, good_key kv ≠ "astropy_unit" ∧ good_key kv ≠ "astropy_unit_time")

mutual

/-- Recursive well-formedness of every nested value. -/
def good_vals : List (String × InVal) → Prop
  | [] => True
  | (_, v) :: rest => good_val v ∧ good_vals rest

/-- Scalars are fine, collections are excluded (claim C5 restricts to
collection-free dictionaries), sub-dictionaries are recursively
well-formed. -/
def good_val : InVal → Prop
  | .scalar _ => True
  | .inst d => good_flat d ∧ good_vals d
  | .coll _ => False

end

/-- Well-formedness of a nested input dictionary for the round-trip
theorem. -/
def good_dict (D : List (String × InVal)) : Prop :=
  good_flat D ∧ good_vals D

mutual

/-- Every dictionary entry is reproduced on the built object: scalar
non-`value` entries as their normalized string under their normalized
key, `value` entries as the cast of the raw string, sub-dictionaries
recursively under their (role-)normalized key. -/
def fields_rep (cast : String → Node → Except String PyVal) :
    List (String × InVal) → Obj → Prop
  | [], _ => True
  | (k, v) :: rest, F => field_rep cast k v F ∧ fields_rep cast rest F

/-- Reproduction of one entry on the built object. -/
def field_rep (cast : String → Node → Except String PyVal) (k : String) :
    InVal → Obj → Prop
  | .scalar s, F =>
    if k = "value" then
      ∃ dn c, cast s dn = .ok c ∧ getattr_opt F "value" = some (.scalar c)
    else
      getattr_opt F (remove_model_name k) = some (.scalar (.vstr (remove_model_name s)))
  | .inst d, F =>
    ∃ F', getattr_opt F (good_key (k, .inst d)) = some (.inst F')
      ∧ fields_rep cast d F'
  | .coll _, _ => True

end

mutual

/-- Every dictionary entry is reproduced in a projection: scalar
non-`value` entries as their normalized key/string pair, `value`
entries as some (cast) scalar, sub-dictionaries recursively as nested
projected objects. -/
def proj_rep : List (String × InVal) → List (String × ProjVal) → Prop
  | [], _ => True
  | (k, v) :: rest, P => proj_rep_one k v P ∧ proj_rep rest P

/-- Reproduction of one entry in a projection. -/
def proj_rep_one (k : String) : InVal → List (String × ProjVal) → Prop
  | .scalar s, P =>
    if k = "value" then ∃ c, ("value", ProjVal.scalar c) ∈ P
    else (remove_model_name k, ProjVal.scalar (.vstr (remove_model_name s))) ∈ P
  | .inst d, P =>
    ∃ P', (good_key (k, .inst d), ProjVal.obj P') ∈ P ∧ proj_rep d P'
  | .coll _, _ => True

end

theorem getattr_mem_proj_pair (slim : Bool) (F : Obj) (k : String) (n : Node)
    (h : getattr_opt F k = some n) (hns : starts_underscore k = false) :
    (k, get_class_dict slim n) ∈ proj_fields slim F := by
  induction F with
  | nil => simp [getattr_opt] at h
  | cons kv rest ih =>
    obtain ⟨k0, n0⟩ := kv
    by_cases hk : k0 = k
    · subst hk
      simp only [getattr_opt, if_pos rfl] at h
      injection h with h2
      subst h2
      simp only [proj_fields, hns, Bool.false_eq_true, if_false]
      exact List.mem_cons_self _ _
    · simp only [getattr_opt, if_neg hk] at h
      have hrest := ih h
      by_cases hs : starts_underscore k0 = true
      · simpa [proj_fields, hs] using hrest
      · simp only [proj_fields, hs, Bool.false_eq_true, if_false]
        exact List.mem_cons_of_mem _ hrest

theorem build_rep (cast : String → Node → Except String PyVal) (units tfs : List String) :
    ∀ (self : Obj) (D : List (String × InVal)),
      good_dict D →
      ∀ F, create_class cast units tfs self D = .ok F →
        (∀ key, key ∉ D.map good_key → key ≠ "astropy_unit" →
          key ≠ "astropy_unit_time" → getattr_opt F key = getattr_opt self key)
        ∧ fields_rep cast D F := by
  have hmain := create_class.induct cast units tfs
    (fun self D => good_dict D → ∀ F, create_class cast units tfs self D = .ok F →
      (∀ key, key ∉ D.map good_key → key ≠ "astropy_unit" →
        key ≠ "astropy_unit_time" → getattr_opt F key = getattr_opt self key)
      ∧ fields_rep cast D F)
    (fun self key v => good_val v →
      ∀ s1, create_one cast units tfs self key v = .ok s1 →
        (∀ key', key' ≠ good_key (key, v) → key' ≠ "astropy_unit" →
          key' ≠ "astropy_unit_time" → getattr_opt s1 key' = getattr_opt self key')
        ∧ field_rep cast key v s1)
    (fun _ => True)
    ?_ ?_ ?_ ?_ ?_ ?_ ?_ ?_ ?_ ?_ ?_ ?_ ?_
  · intro self D hg F h
    exact hmain self D hg F h
  · intro self key items e _ _ hgv
    exact absurd hgv (by simp [good_val])
  · intro self key items subs _ _ hgv
    exact absurd hgv (by simp [good_val])
  · intro self key d e herr _ hgv s1 h1
    simp [create_one, herr] at h1
  · intro self key d base hok hnl ih hgv s1 h1
    simp only [create_one, hok, if_pos hnl] at h1
    injection h1 with h2
    subst h2
    have hgk : good_key (key, .inst d) = remove_model_name key true := by
      simp only [good_key]
      rw [if_pos hnl]
    obtain ⟨hgd1, hgd2⟩ : good_flat d ∧ good_vals d := by simpa [good_val] using hgv
    refine ⟨?_, ?_⟩
    · intro key' h1' _ _
      rw [hgk] at h1'
      exact getattr_setattr_other self _ key' _ h1'
    · refine ⟨base, ?_, (ih ⟨hgd1, hgd2⟩ base hok).2⟩
      rw [hgk]
      exact getattr_setattr_self self _ _
  · intro self key d base hok hnl ih hgv s1 h1
    simp only [create_one, hok, if_neg hnl] at h1
    injection h1 with h2
    subst h2
    have hgk : good_key (key, .inst d) = remove_model_name key := by
      simp only [good_key]
      rw [if_neg hnl]
    obtain ⟨hgd1, hgd2⟩ : good_flat d ∧ good_vals d := by simpa [good_val] using hgv
    refine ⟨?_, ?_⟩
    · intro key' h1' _ _
      rw [hgk] at h1'
      exact getattr_setattr_other self _ key' _ h1'
    · refine ⟨base, ?_, (ih ⟨hgd1, hgd2⟩ base hok).2⟩
      rw [hgk]
      exact getattr_setattr_self self _ _
  · -- ATTRIBUTE scalar case
    intro self key s _ s1 h1
    by_cases hkv : key = "value"
    · subst hkv
      have hrv : remove_model_name "value" = "value" := by decide
      rcases hdm : getattr_opt self "dmtype" with _ | dn
      · simp [create_one, attr_step, hdm] at h1
      · rcases hc : cast s dn with m | c
        · simp [create_one, attr_step, hdm, hc] at h1
        · simp [create_one, attr_step, hdm, hc, hrv] at h1
          subst h1
          refine ⟨?_, ?_⟩
          · intro key' h1' _ _
            have hne : key' ≠ "value" := by simpa [good_key, hrv] using h1'
            exact getattr_setattr_other self _ key' _ hne
          · simp only [field_rep, if_pos rfl]
            exact ⟨dn, c, hc, getattr_setattr_self self _ _⟩
    · by_cases hku : key = "unit"
      · subst hku
        have hru : remove_model_name "unit" = "unit" := by decide
        by_cases hs : s = ""
        · subst hs
          simp [create_one, attr_step, hru] at h1
          subst h1
          refine ⟨?_, ?_⟩
          · intro key' h1' _ _
            have hne : key' ≠ "unit" := by simpa [good_key, hru] using h1'
            exact getattr_setattr_other self _ key' _ hne
          · simp only [field_rep, if_neg hkv, hru]
            exact getattr_setattr_self self _ _
        · by_cases hm1 : String.mk (replace_year s.data) ∈ units
          · simp [create_one, attr_step, hru, hs, hm1] at h1
            subst h1
            refine ⟨?_, ?_⟩
            · intro key' h1' h2' h3'
              rw [getattr_setattr_other _ _ key' _ h2']
              have hne : key' ≠ "unit" := by simpa [good_key, hru] using h1'
              exact getattr_setattr_other self _ key' _ hne
            · simp only [field_rep, if_neg hkv, hru]
              rw [getattr_setattr_other _ _ _ _
                (by decide : ("unit" : String) ≠ "astropy_unit")]
              exact getattr_setattr_self self _ _
          · by_cases hm2 : String.mk (replace_year s.data) ∈ tfs
            · simp [create_one, attr_step, hru, hs, hm1, hm2] at h1
              subst h1
              refine ⟨?_, ?_⟩
              · intro key' h1' h2' h3'
                rw [getattr_setattr_other _ _ key' _ h3']
                have hne : key' ≠ "unit" := by simpa [good_key, hru] using h1'
                exact getattr_setattr_other self _ key' _ hne
              · simp only [field_rep, if_neg hkv, hru]
                rw [getattr_setattr_other _ _ _ _
                  (by decide : ("unit" : String) ≠ "astropy_unit_time")]
                exact getattr_setattr_self self _ _
            · simp [create_one, attr_step, hru, hs, hm1, hm2] at h1
              subst h1
              refine ⟨?_, ?_⟩
              · intro key' h1' _ _
                have hne : key' ≠ "unit" := by simpa [good_key, hru] using h1'
                exact getattr_setattr_other self _ key' _ hne
              · simp only [field_rep, if_neg hkv, hru]
                exact getattr_setattr_self self _ _
      · simp [create_one, attr_step, hkv, hku] at h1
        subst h1
        refine ⟨?_, ?_⟩
        · intro key' h1' _ _
          have hne : key' ≠ remove_model_name key := by simpa [good_key] using h1'
          exact getattr_setattr_other self _ key' _ hne
        · simp only [field_rep, if_neg hkv]
          exact getattr_setattr_self self _ _
  · intro self _ F h1
    simp only [create_class] at h1
    injection h1 with h2
    subst h2
    exact ⟨fun _ _ _ _ => rfl, trivial⟩
  · intro self key v rest e herr _ _ F h1
    simp [create_class, herr] at h1
  · intro self key v rest base hok ih2 ih1 hg F h1
    simp only [create_class, hok] at h1
    obtain ⟨hflat, hvals⟩ := hg
    obtain ⟨hval1, hvals2⟩ : good_val v ∧ good_vals rest := hvals
    have hflat_rest : good_flat rest :=
      ⟨(by simpa using hflat.1 : (good_key (key, v) :: rest.map good_key).Nodup).of_cons,
       fun kv hm => hflat.2.1 kv (List.mem_cons_of_mem _ hm),
       fun kv hm => hflat.2.2 kv (List.mem_cons_of_mem _ hm)⟩
    obtain ⟨ha2, hb2⟩ := ih2 hval1 base hok
    obtain ⟨ha1, hb1⟩ := ih1 ⟨hflat_rest, hvals2⟩ F h1
    have hgk_notin : good_key (key, v) ∉ rest.map good_key := by
      have := (by simpa using hflat.1 : (good_key (key, v) :: rest.map good_key).Nodup)
      exact (List.nodup_cons.mp this).1
    have hgk_na : good_key (key, v) ≠ "astropy_unit" :=
      (hflat.2.2 (key, v) (List.mem_cons_self _ _)).1
    have hgk_nt : good_key (key, v) ≠ "astropy_unit_time" :=
      (hflat.2.2 (key, v) (List.mem_cons_self _ _)).2
    have htrans : getattr_opt F (good_key (key, v)) = getattr_opt base (good_key (key, v)) :=
      ha1 _ hgk_notin hgk_na hgk_nt
    refine ⟨?_, ?_, hb1⟩
    · intro key' hnotin h2' h3'
      have h4 : key' ≠ good_key (key, v) ∧ key' ∉ rest.map good_key := by
        simpa [List.mem_cons] using hnotin
      rw [ha1 key' h4.2 h2' h3', ha2 key' h4.1 h2' h3']
    · rcases v with s | d | items
      · by_cases hkv : key = "value"
        · subst hkv
          simp only [field_rep, if_pos rfl] at hb2 ⊢
          obtain ⟨dn, c, hc, hlook⟩ := hb2
          refine ⟨dn, c, hc, ?_⟩
          have hgv2 : good_key ("value", InVal.scalar s) = "value" := by
            simp only [good_key]
            decide
          rw [← hgv2] at hlook ⊢
          rw [htrans]
          exact hlook
        · simp only [field_rep, if_neg hkv] at hb2 ⊢
          have : good_key (key, InVal.scalar s) = remove_model_name key := rfl
          rw [← this] at hb2 ⊢
          rw [htrans]
          exact hb2
      · simp only [field_rep] at hb2 ⊢
        obtain ⟨F', hlook, hrep⟩ := hb2
        exact ⟨F', htrans ▸ hlook, hrep⟩
      · trivial
  · trivial
  · intro d rest e _ _
    trivial
  · intro d rest base _ e _ _ _
    trivial
  · intro d rest base _ subs _ _ _
    trivial

theorem proj_of_fields_rep (cast : String → Node → Except String PyVal) :
    ∀ (n : Nat) (D : List (String × InVal)) (F : Obj), sizeOf D ≤ n →
      good_dict D → fields_rep cast D F → proj_rep D (proj_fields false F) := by
  intro n
  induction n with
  | zero =>
    intro D F hsz
    exfalso
    have : 1 ≤ sizeOf D := by
      cases D <;> simp_arith
    omega
  | succ n ih =>
    intro D F hsz hg hf
    rcases D with _ | ⟨⟨k, v⟩, rest⟩
    · trivial
    obtain ⟨hflat, hvals⟩ := hg
    obtain ⟨hval1, hvals2⟩ : good_val v ∧ good_vals rest := hvals
    obtain ⟨h1, h2⟩ : field_rep cast k v F ∧ fields_rep cast rest F := hf
    have hflat_rest : good_flat rest :=
      ⟨(by simpa using hflat.1 : (good_key (k, v) :: rest.map good_key).Nodup).of_cons,
       fun kv hm => hflat.2.1 kv (List.mem_cons_of_mem _ hm),
       fun kv hm => hflat.2.2 kv (List.mem_cons_of_mem _ hm)⟩
    have hszrest : sizeOf rest ≤ n := by
      have : sizeOf ((k, v) :: rest) = 1 + sizeOf (k, v) + sizeOf rest := by simp_arith
      have hkv : 1 ≤ sizeOf (k, v) := by simp_arith
      omega
    have hns : starts_underscore (good_key (k, v)) = false :=
      hflat.2.1 (k, v) (List.mem_cons_self _ _)
    refine ⟨?_, ih rest F hszrest ⟨hflat_rest, hvals2⟩ h2⟩
    rcases v with s | d | items
    · simp only [field_rep] at h1
      by_cases hkv : k = "value"
      · rw [if_pos hkv] at h1
        obtain ⟨dn, c, _, hlook⟩ := h1
        have hnsv : starts_underscore ("value" : String) = false := by decide
        have hm := getattr_mem_proj_pair false F "value" _ hlook hnsv
        simp only [proj_rep_one, if_pos hkv]
        exact ⟨c, hm⟩
      · rw [if_neg hkv] at h1
        have hns' : starts_underscore (remove_model_name k) = false := by
          simpa [good_key] using hns
        have hm := getattr_mem_proj_pair false F (remove_model_name k) _ h1 hns'
        simp only [proj_rep_one, if_neg hkv]
        exact hm
    · simp only [field_rep] at h1
      obtain ⟨F', hlook, hrep⟩ := h1
      have hm := getattr_mem_proj_pair false F (good_key (k, .inst d)) _ hlook hns
      have hobj : get_class_dict false (.inst F') = .obj (proj_fields false F') := by
        simp [get_class_dict]
      rw [hobj] at hm
      have hszd : sizeOf d ≤ n := by
        have h3 : sizeOf ((k, InVal.inst d) :: rest) =
            1 + sizeOf (k, InVal.inst d) + sizeOf rest := by simp_arith
        have h4 : sizeOf (k, InVal.inst d) = 1 + sizeOf k + (1 + sizeOf d) := by simp_arith
        have h5 : 1 ≤ sizeOf rest := by cases rest <;> simp_arith
        have h6 : 1 ≤ sizeOf k := by simp_arith [sizeOf, String._sizeOf_1]
        omega
      obtain ⟨hgd1, hgd2⟩ : good_flat d ∧ good_vals d := by simpa [good_val] using hval1
      refine ⟨proj_fields false F', hm, ih d F' hszd ⟨hgd1, hgd2⟩ hrep⟩
    · exact absurd hval1 (by simp [good_val])

/-- C5, counterexample: the dictionary
`{"dmtype": "float", "value": "3.5"}` contains the non-housekeeping
pair `("value", "3.5")`, but the full projection of the built tree
holds the cast float `3.5` under `value`, not the (normalized) raw
string — so the claim "reproduces every non-housekeeping key/value
pair modulo name normalization" fails: `value` entries are reproduced
only up to casting. -/
theorem claim_C5_cex :
    create_class cast_type_value [] [] []
        [("dmtype", .scalar "float"), ("value", .scalar "3.5")]
      = .ok [("dmtype", Node.scalar (.vstr "float")),
             ("value", Node.scalar (.vfloat (7 / 2)))]
    ∧ ("value", ProjVal.scalar (.vstr (remove_model_name "3.5"))) ∉
        hk_dict [("dmtype", Node.scalar (.vstr "float")),
                 ("value", Node.scalar (.vfloat (7 / 2)))] := by
  constructor
  · have hd : remove_model_name "dmtype" = "dmtype" := by decide
    have hv : remove_model_name "value" = "value" := by decide
    have hf : remove_model_name "float" = "float" := by decide
    simp [create_class, create_one, attr_step, setattr, getattr_opt,
      cast_type_value, parseDecimal, decSplit, parseDigits, hd, hv, hf]
    norm_num
  · have hr : remove_model_name "3.5" = "3.5" := by decide
    simp [hk_dict, proj_obj, proj_fields, get_class_dict, starts_underscore, hr]

/-- C5 (amended): for every collection-free nested dictionary D whose
normalized keys are, at every nesting level, pairwise distinct, not
underscore-prefixed and distinct from the derived unit-field names,
the tree built from D reproduces every entry of D — scalar non-`value`
entries as their normalized key/value pair, `value` entries as the cast
of the raw string (not the raw string itself), nested dictionaries
recursively — and the full (non-slim) projection reproduces the same
pairs as nested plain data. -/
theorem claim_C5 (cast : String → Node → Except String PyVal)
    (units tfs : List String) (D : List (String × InVal)) (F : Obj)
    (hgood : good_dict D) (hbuild : create_class cast units tfs [] D = .ok F) :
    fields_rep cast D F ∧ proj_rep D (hk_dict F) := by
  have hfr := (build_rep cast units tfs [] D hgood F hbuild).2
  exact ⟨hfr, proj_of_fields_rep cast (sizeOf D) D F le_rfl hgood hfr⟩

/-- C5, witness: a two-attribute leaf dictionary with namespaced keys,
built and projected. -/
theorem claim_C5_witness :
    good_dict [("mod:dmtype", InVal.scalar "float"), ("mod:ref", InVal.scalar "c1")]
    ∧ (fields_rep cast_type_value
        [("mod:dmtype", InVal.scalar "float"), ("mod:ref", InVal.scalar "c1")]
        [("dmtype", Node.scalar (.vstr "float")), ("ref", Node.scalar (.vstr "c1"))]
      ∧ proj_rep [("mod:dmtype", InVal.scalar "float"), ("mod:ref", InVal.scalar "c1")]
        (hk_dict [("dmtype", Node.scalar (.vstr "float")),
                  ("ref", Node.scalar (.vstr "c1"))])) := by
  have hgood : good_dict [("mod:dmtype", InVal.scalar "float"),
      ("mod:ref", InVal.scalar "c1")] := by
    refine ⟨⟨?_, ?_, ?_⟩, ?_⟩
    · decide
    · decide
    · decide
    · exact ⟨trivial, trivial, trivial⟩
  have hbuild : create_class cast_type_value [] [] []
      [("mod:dmtype", InVal.scalar "float"), ("mod:ref", InVal.scalar "c1")]
      = .ok [("dmtype", Node.scalar (.vstr "float")), ("ref", Node.scalar (.vstr "c1"))] :=
    rfl
  exact ⟨hgood, claim_C5 cast_type_value [] [] _ _ hgood hbuild⟩
